import Mathlib

/-!
Shallow embedding of the `datetime-helpers` library (src/calendar.rs,
src/formatter.rs, src/lib.rs) and proofs about it.

Dates are modelled as proleptic-Gregorian calendar values, represented by
their day number counted from 1970-01-01 (day 0); `chrono::NaiveDate`
equality, ordering, day arithmetic and weekday are all faithfully mirrored
on day numbers.  Datetimes (`chrono::NaiveDateTime`) are modelled as seconds
counted from 1970-01-01T00:00:00; `Duration::hours(h)` adds `h * 3600`
seconds and the `.date()` component is the floor of the second count by
86400.  Rust `i32`/`u32` arithmetic is modelled on `Int`/`Nat`: in the one
numeric routine (`get_easter`) all intermediate `u32` values stay far below
`2^32` for any `i32` input, and the no-underflow facts for the `u32`
subtractions are proved below, so plain `Nat` arithmetic coincides with the
machine arithmetic.  Fallible Rust functions returning `Result<T>` become
`Except Error T`.  The two recursive traversal routines are general
recursion in Rust; they are embedded with an explicit fuel argument
(`none` = out of fuel), and their termination is proved as a theorem
(sufficient fuel always exists).
-/

deriving instance DecidableEq for Except

namespace DatetimeHelpers

/-- The error enum of src/lib.rs. -/
inductive Error where
  | CalendarError : String → Error
  | ParamsError : String → Error
deriving DecidableEq, Repr

/-- Proleptic-Gregorian leap-year rule (as used by `chrono::NaiveDate`). -/
def isLeapYear (y : Int) : Bool := y % 4 == 0 && (y % 100 != 0 || y % 400 == 0)

/-- Number of days of month `m` (1..12) in year `y`. -/
def daysInMonth (y : Int) (m : Nat) : Nat :=
  if m = 2 then (if isLeapYear y then 29 else 28)
  else if m = 4 ∨ m = 6 ∨ m = 9 ∨ m = 11 then 30
  else 31

/-- Validity of a (year, month, day) triple as a proleptic-Gregorian date:
exactly when `chrono::NaiveDate::from_ymd_opt` succeeds (the representation
range of `chrono` is not modelled; the spec defines `CalendarDate` as an
unbounded proleptic-Gregorian value). -/
def isValidYmd (y : Int) (m d : Nat) : Bool :=
  decide (1 ≤ m) && decide (m ≤ 12) && decide (1 ≤ d) && decide (d ≤ daysInMonth y m)

/-- Day number of a proleptic-Gregorian date, counted from 1970-01-01 = day 0
(Howard Hinnant's `days_from_civil`; `Int` division is floor division here
since the divisors are positive). -/
def toDays (y : Int) (m d : Nat) : Int :=
  let yShift : Int := if m ≤ 2 then y - 1 else y
  let era : Int := yShift / 400
  let yoe : Int := yShift - era * 400
  let mp : Nat := (m + 9) % 12
  let doy : Nat := (153 * mp + 2) / 5 + d - 1
  let doe : Int := yoe * 365 + yoe / 4 - yoe / 100 + (doy : Int)
  era * 146097 + doe - 719468

/-- Weekday of a day number: 0 = Monday .. 5 = Saturday, 6 = Sunday
(`chrono::Weekday::num_days_from_monday`; day 0 = 1970-01-01 was a Thursday). -/
def weekday (d : Int) : Int := (d + 3) % 7

/-- The date component of a datetime given in seconds since
1970-01-01T00:00:00 (`NaiveDateTime::date`). -/
def dateOf (datetime : Int) : Int := datetime / 86400

/-- `fn get_date(year, month, day)` of src/calendar.rs: `NaiveDate::from_ymd_opt`
with the invalid triple reported in a `CalendarError`. -/
def get_date (year : Int) (month day : Nat) : Except Error Int :=
  if isValidYmd year month day then .ok (toDays year month day)
  else .error (.CalendarError (toString year ++ "-" ++ toString month ++ "-" ++ toString day))

/-- `i32::try_into::<u32>()` as used by `get_easter`: fails exactly on
negative input (every non-negative `i32` fits in a `u32`). -/
def intToU32 (year : Int) : Except Error Nat :=
  if year < 0 then .error (.CalendarError "out of range integral type conversion attempted")
  else .ok year.toNat

/-- `fn divide` of src/calendar.rs: quotient and remainder, always `Ok`. -/
def divide (dividende diviseur : Nat) : Except Error (Nat × Nat) :=
  .ok (dividende / diviseur, dividende % diviseur)

namespace Easter

/-- Intermediate value `a` of the Easter algorithm (spec 4.1): `year / 100`. -/
def a (y : Nat) : Nat := y / 100

/-- Intermediate value `b`: `year % 100`. -/
def b (y : Nat) : Nat := y % 100

/-- Intermediate value `c`: `3*(a+25) / 4`. -/
def c (y : Nat) : Nat := 3 * (a y + 25) / 4

/-- Intermediate value `d`: `3*(a+25) % 4`. -/
def d (y : Nat) : Nat := 3 * (a y + 25) % 4

/-- Intermediate value `e`: `8*(a+11) / 25`. -/
def e (y : Nat) : Nat := 8 * (a y + 11) / 25

/-- Intermediate value `f`: `(5*a+b) % 19`. -/
def f (y : Nat) : Nat := (5 * a y + b y) % 19

/-- Intermediate value `g`: `(19*f + c - e) % 30`. -/
def g (y : Nat) : Nat := (19 * f y + c y - e y) % 30

/-- Intermediate value `h`: `(f + 11*g) / 319`. -/
def h (y : Nat) : Nat := (f y + 11 * g y) / 319

/-- Intermediate value `j`: `(60*(5-d)+b) / 4`. -/
def j (y : Nat) : Nat := (60 * (5 - d y) + b y) / 4

/-- Intermediate value `k`: `(60*(5-d)+b) % 4`. -/
def k (y : Nat) : Nat := (60 * (5 - d y) + b y) % 4

/-- Intermediate value `m`: `(2*j - k - g + h) % 7`. -/
def m (y : Nat) : Nat := (2 * j y - k y - g y + h y) % 7

/-- Intermediate value `n`: `(g - h + m + 114) / 31`. -/
def n (y : Nat) : Nat := (g y - h y + m y + 114) / 31

/-- Intermediate value `p`: `(g - h + m + 114) % 31`. -/
def p (y : Nat) : Nat := (g y - h y + m y + 114) % 31

/-- The month of Easter Sunday per the algorithm of spec 4.1: `month = n`. -/
def month (y : Nat) : Nat := n y

/-- The day of Easter Sunday per the algorithm of spec 4.1: `day = p + 1`. -/
def day (y : Nat) : Nat := p y + 1

end Easter

/-- `fn get_easter(year)` of src/calendar.rs, transliterated let-for-let
(each `?` becomes an explicit match on the `Except`). -/
def get_easter (year : Int) : Except Error Int :=
  match intToU32 year with
  | .error err => .error err
  | .ok my_year =>
    match divide my_year 100 with
    | .error err => .error err
    | .ok (a, b) =>
      match divide (3 * (a + 25)) 4 with
      | .error err => .error err
      | .ok (c, d) =>
        let e := 8 * (a + 11) / 25
        let f := (5 * a + b) % 19
        let g := (19 * f + c - e) % 30
        let h := (f + 11 * g) / 319
        match divide (60 * (5 - d) + b) 4 with
        | .error err => .error err
        | .ok (j, k) =>
          let m := (2 * j - k - g + h) % 7
          match divide (g - h + m + 114) 31 with
          | .error err => .error err
          | .ok (n, p) =>
            let day := p + 1
            let month := n
            get_date year month day

/-- The per-year block of `fn build_holidays`: the `days` vector built for one
`y` of the loop (the `easter` argument is the single Easter date computed
from the requested central year). -/
def holidays_for_year (easter : Int) (y : Int) : Except Error (List Int) :=
  match get_date y 1 1, get_date y 5 1, get_date y 5 8, get_date y 7 14, get_date y 8 15,
      get_date y 11 1, get_date y 11 11, get_date y 12 25 with
  | .ok jan1, .ok may1, .ok may8, .ok jul14, .ok aug15, .ok nov1, .ok nov11, .ok dec25 =>
    .ok [jan1, easter + 1, easter + 39, easter + 50, may1, may8, jul14, aug15, nov1, nov11, dec25]
  | .error err, _, _, _, _, _, _, _ => .error err
  | _, .error err, _, _, _, _, _, _ => .error err
  | _, _, .error err, _, _, _, _, _ => .error err
  | _, _, _, .error err, _, _, _, _ => .error err
  | _, _, _, _, .error err, _, _, _ => .error err
  | _, _, _, _, _, .error err, _, _ => .error err
  | _, _, _, _, _, _, .error err, _ => .error err
  | _, _, _, _, _, _, _, .error err => .error err

/-- `fn build_holidays(year)` of src/calendar.rs: the loop over
`[year-1, year, year+1]` unrolled, then flattened. -/
def build_holidays (year : Int) : Except Error (List Int) :=
  match get_easter year with
  | .error err => .error err
  | .ok easter =>
    match holidays_for_year easter (year - 1), holidays_for_year easter year,
        holidays_for_year easter (year + 1) with
    | .ok h1, .ok h2, .ok h3 => .ok (h1 ++ h2 ++ h3)
    | .error err, _, _ => .error err
    | _, .error err, _ => .error err
    | _, _, .error err => .error err

/-- The `Calendar` struct of src/calendar.rs. -/
structure Calendar where
  is_saturday_off : Bool
  is_sunday_off : Bool
  holidays : List Int
deriving DecidableEq, Repr

/-- `Calendar::new(year)`: both weekend days off. -/
def Calendar.new (year : Int) : Except Error Calendar :=
  match build_holidays year with
  | .error err => .error err
  | .ok holidays => .ok { is_saturday_off := true, is_sunday_off := true, holidays := holidays }

/-- `Calendar::new_with_days_off(year, is_saturday_off, is_sunday_off)`. -/
def Calendar.new_with_days_off (year : Int) (is_saturday_off is_sunday_off : Bool) :
    Except Error Calendar :=
  match build_holidays year with
  | .error err => .error err
  | .ok holidays =>
    .ok { is_saturday_off := is_saturday_off, is_sunday_off := is_sunday_off, holidays := holidays }

/-- `Calendar::is_day_off(date)`. -/
def Calendar.is_day_off (self : Calendar) (date : Int) : Bool :=
  let is_holidays := self.holidays.any (fun x => date == x)
  let saturday_off := (weekday date == 5) && self.is_saturday_off
  let sunday_off := (weekday date == 6) && self.is_sunday_off
  is_holidays || saturday_off || sunday_off

/-- `fn add_days`: `date + Duration::days(nb_days)`. -/
def add_days (date : Int) (nb_days : Int) : Int := date + nb_days

/-- `fn minus_days`: `date - Duration::days(nb_days)`. -/
def minus_days (date : Int) (nb_days : Int) : Int := date - nb_days

/-- `fn add_hours`: `datetime + Duration::hours(nb_hours)`, in seconds. -/
def add_hours (datetime : Int) (nb_hours : Int) : Int := datetime + nb_hours * 3600

/-- `fn minus_hours`: `datetime - Duration::hours(nb_hours)`, in seconds. -/
def minus_hours (datetime : Int) (nb_hours : Int) : Int := datetime - nb_hours * 3600

/-- `Calendar::get_working_day_at_day`, with an explicit fuel argument for the
general recursion of the Rust source (`none` = fuel exhausted; termination is
proved separately). -/
def Calendar.get_working_day_at_day (self : Calendar) (date : Int) (nb_days : Int)
    (date_leaper : Int → Int → Int) : Nat → Option (Except Error Int)
  | 0 => none
  | fuel + 1 =>
    let other_date := date_leaper date nb_days
    if self.is_day_off other_date then
      Calendar.get_working_day_at_day self other_date 1 date_leaper fuel
    else
      some (.ok other_date)

/-- `Calendar::get_next_working_day(date, days_added)`. -/
def Calendar.get_next_working_day (self : Calendar) (date : Int) (days_added : Int)
    (fuel : Nat) : Option (Except Error Int) :=
  self.get_working_day_at_day date days_added add_days fuel

/-- `Calendar::get_previous_working_day(date, days_added)`. -/
def Calendar.get_previous_working_day (self : Calendar) (date : Int) (days_added : Int)
    (fuel : Nat) : Option (Except Error Int) :=
  self.get_working_day_at_day date days_added minus_days fuel

/-- `Calendar::get_working_day_at_hour`, with an explicit fuel argument
(corrective steps move by 24 wall-clock hours = 86400 seconds). -/
def Calendar.get_working_day_at_hour (self : Calendar) (date : Int) (nb_hours : Int)
    (datetime_leaper : Int → Int → Int) : Nat → Option (Except Error Int)
  | 0 => none
  | fuel + 1 =>
    let other_date := datetime_leaper date nb_hours
    if self.is_day_off (dateOf other_date) then
      Calendar.get_working_day_at_hour self other_date 24 datetime_leaper fuel
    else
      some (.ok other_date)

/-- `Calendar::get_next_working_day_with_hours(datetime, hours_added)`. -/
def Calendar.get_next_working_day_with_hours (self : Calendar) (datetime : Int)
    (hours_added : Int) (fuel : Nat) : Option (Except Error Int) :=
  self.get_working_day_at_hour datetime hours_added add_hours fuel

/-- `Calendar::get_previous_working_day_with_hours(datetime, hours_added)`. -/
def Calendar.get_previous_working_day_with_hours (self : Calendar) (datetime : Int)
    (hours_added : Int) (fuel : Nat) : Option (Except Error Int) :=
  self.get_working_day_at_hour datetime hours_added minus_hours fuel

/-- An upper bound of a list of day numbers (0 for the empty list). -/
def listMaxI : List Int → Int
  | [] => 0
  | x :: xs => max x (listMaxI xs)

/-- A lower bound of a list of day numbers (0 for the empty list). -/
def listMinI : List Int → Int
  | [] => 0
  | x :: xs => min x (listMinI xs)

/-- A decimal digit character: `digitChar x` is '0'..'9' for `x < 10`. -/
def digitChar (x : Nat) : Char := Char.ofNat (48 + x)

/-- The `w` least significant decimal digits of `n`, zero padded to width
`w`: Rust's zero-padded fixed-width decimal formatting, agreeing with it
whenever `n < 10^w`. -/
def padDigits : Nat → Nat → List Char
  | 0, _ => []
  | w + 1, n => padDigits w (n / 10) ++ [digitChar (n % 10)]

/-- `NaiveDate`'s `Display` rendering (ISO 8601 `YYYY-MM-DD`), for years
0..=9999 (rendered as exactly four zero-padded digits); strings are embedded
as `List Char`. -/
def naiveDateToString (y m d : Nat) : List Char :=
  padDigits 4 y ++ Char.ofNat 45 :: (padDigits 2 m ++ Char.ofNat 45 :: padDigits 2 d)

/-- `NaiveTime`'s `Display` rendering (`HH:MM:SS`, no fractional second). -/
def naiveTimeToString (h mi s : Nat) : List Char :=
  padDigits 2 h ++ Char.ofNat 58 :: (padDigits 2 mi ++ Char.ofNat 58 :: padDigits 2 s)

/-- `fn iso_date_to_teliway_date` of src/formatter.rs:
`date.to_string().replace('-', "")` (removing every dash). -/
def iso_date_to_teliway_date (y m d : Nat) : List Char :=
  (naiveDateToString y m d).filter (fun c => c != Char.ofNat 45)

/-- `fn iso_time_to_teliway_hour` of src/formatter.rs:
`date.to_string()[..5].replace(':', "")` (the first five characters, colons
removed: only hours and minutes survive). -/
def iso_time_to_teliway_hour (h mi s : Nat) : List Char :=
  ((naiveTimeToString h mi s).take 5).filter (fun c => c != Char.ofNat 58)

/-- `fn format_teliway_datetime_to_iso` of src/formatter.rs: unchecked byte
slicing `date[..=3]`, `date[4..=5]`, `date[6..]`, `hour[..=1]`,
`hour[2..=3]`, `hour[4..]`, rejoined with dashes and colons. -/
def format_teliway_datetime_to_iso (date hour : List Char) : List Char × List Char :=
  let y := date.take 4
  let mo := (date.drop 4).take 2
  let dd := date.drop 6
  let dateIso := y ++ Char.ofNat 45 :: (mo ++ Char.ofNat 45 :: dd)
  let hh := hour.take 2
  let mi := (hour.drop 2).take 2
  let ss := hour.drop 4
  let timeIso := hh ++ Char.ofNat 58 :: (mi ++ Char.ofNat 58 :: ss)
  (dateIso, timeIso)

/-- The `days` vector `holidays_for_year` produces for one year `y` of the
loop (given the central Easter date). -/
def holidaysListFor (easter y : Int) : List Int :=
  [toDays y 1 1, easter + 1, easter + 39, easter + 50, toDays y 5 1, toDays y 5 8,
   toDays y 7 14, toDays y 8 15, toDays y 11 1, toDays y 11 11, toDays y 12 25]

/-- The flattened holiday list `build_holidays` produces. -/
def holidaysList (year easter : Int) : List Int :=
  holidaysListFor easter (year - 1) ++ holidaysListFor easter year ++
    holidaysListFor easter (year + 1)

/-- The calendar `Calendar::new(2018)` builds (used to instantiate hypotheses
at a concrete input). -/
def cal2018 : Calendar := (Calendar.new 2018).toOption.getD ⟨true, true, []⟩

/-- The claim of spec 4.3 that a fixed holiday of year `y` is recognized, for
all eight French fixed holidays. -/
def fixedRecognized (cal : Calendar) (y : Int) : Prop :=
  cal.is_day_off (toDays y 1 1) = true ∧ cal.is_day_off (toDays y 5 1) = true ∧
  cal.is_day_off (toDays y 5 8) = true ∧ cal.is_day_off (toDays y 7 14) = true ∧
  cal.is_day_off (toDays y 8 15) = true ∧ cal.is_day_off (toDays y 11 1) = true ∧
  cal.is_day_off (toDays y 11 11) = true ∧ cal.is_day_off (toDays y 12 25) = true

/-- The claim that the three movable holidays offset from a given Easter date
are recognized: Easter Monday (+1), Ascension (+39), Whit Monday (+50). -/
def movableRecognized (cal : Calendar) (easter : Int) : Prop :=
  cal.is_day_off (easter + 1) = true ∧ cal.is_day_off (easter + 39) = true ∧
  cal.is_day_off (easter + 50) = true

/-- Membership in the eight fixed French holiday dates of year `y`. -/
def fixedDatesOf (y : Int) (dd : Int) : Prop :=
  dd = toDays y 1 1 ∨ dd = toDays y 5 1 ∨ dd = toDays y 5 8 ∨ dd = toDays y 7 14 ∨
  dd = toDays y 8 15 ∨ dd = toDays y 11 1 ∨ dd = toDays y 11 11 ∨ dd = toDays y 12 25

/-- Spec 4.2's description of the holiday set for a request year: per each of
the three consecutive years its eight fixed dates, plus the three movable
dates offset from the single Easter computed for the central year. -/
def holidaySetSpec (year easter : Int) (hs : List Int) : Prop :=
  ∀ dd : Int, dd ∈ hs ↔
    (fixedDatesOf (year - 1) dd ∨ fixedDatesOf year dd ∨ fixedDatesOf (year + 1) dd ∨
     dd = easter + 1 ∨ dd = easter + 39 ∨ dd = easter + 50)

end DatetimeHelpers

namespace DatetimeHelpers

/-! ## Basic facts about `is_day_off` and the holiday list -/

theorem is_day_off_iff (cal : Calendar) (dd : Int) :
    cal.is_day_off dd = true ↔
      (dd ∈ cal.holidays ∨ (weekday dd = 5 ∧ cal.is_saturday_off = true) ∨
       (weekday dd = 6 ∧ cal.is_sunday_off = true)) := by
  simp [Calendar.is_day_off, List.any_eq_true, beq_iff_eq, or_assoc]

theorem mem_le_listMaxI {x : Int} {l : List Int} (hx : x ∈ l) : x ≤ listMaxI l := by
  induction l with
  | nil => cases hx
  | cons y ys ih =>
    rcases List.mem_cons.mp hx with rfl | hmem
    · exact le_max_left _ _
    · exact le_trans (ih hmem) (le_max_right _ _)

theorem listMinI_le_mem {x : Int} {l : List Int} (hx : x ∈ l) : listMinI l ≤ x := by
  induction l with
  | nil => cases hx
  | cons y ys ih =>
    rcases List.mem_cons.mp hx with rfl | hmem
    · exact min_le_left _ _
    · exact le_trans (min_le_right _ _) (ih hmem)

theorem is_day_off_false_of_monday_far (cal : Calendar) (dd : Int)
    (hfar : listMaxI cal.holidays < dd ∨ dd < listMinI cal.holidays)
    (hmon : weekday dd = 0) : cal.is_day_off dd = false := by
  rw [Bool.eq_false_iff]
  intro habs
  rcases (is_day_off_iff cal dd).mp habs with hmem | ⟨hw, _⟩ | ⟨hw, _⟩
  · rcases hfar with hgt | hlt
    · exact absurd (mem_le_listMaxI hmem) (by omega)
    · exact absurd (listMinI_le_mem hmem) (by omega)
  · omega
  · omega

/-- In the forward direction there is always a working day: some Monday past
every materialized holiday. -/
theorem exists_not_day_off_fwd (cal : Calendar) (d0 : Int) :
    ∃ kk : Nat, cal.is_day_off (d0 + kk) = false := by
  set base : Nat := (listMaxI cal.holidays + 1 - d0).toNat with hbase
  set ww : Nat := ((-(d0 + base + 3)) % 7).toNat with hww
  refine ⟨base + ww, is_day_off_false_of_monday_far _ _ (Or.inl ?_) ?_⟩
  · omega
  · unfold weekday
    omega

/-- In the backward direction there is always a working day: some Monday
before every materialized holiday. -/
theorem exists_not_day_off_bwd (cal : Calendar) (d0 : Int) :
    ∃ kk : Nat, cal.is_day_off (d0 - kk) = false := by
  set base : Nat := (d0 - (listMinI cal.holidays - 1)).toNat with hbase
  set ww : Nat := ((d0 - base + 3) % 7).toNat with hww
  refine ⟨base + ww, is_day_off_false_of_monday_far _ _ (Or.inr ?_) ?_⟩
  · omega
  · unfold weekday
    omega

/-! ## The day-granularity traversal -/

theorem at_day_fwd_sound (fuel : Nat) (cal : Calendar) :
    ∀ (date n r : Int),
      cal.get_working_day_at_day date n add_days fuel = some (.ok r) →
      cal.is_day_off r = false ∧ date + n ≤ r ∧
        ∀ x : Int, date + n ≤ x → x < r → cal.is_day_off x = true := by
  induction fuel with
  | zero =>
    intro date n r hres
    simp [Calendar.get_working_day_at_day] at hres
  | succ fuel ih =>
    intro date n r hres
    simp only [Calendar.get_working_day_at_day, add_days] at hres
    by_cases hoff : cal.is_day_off (date + n) = true
    · rw [if_pos hoff] at hres
      obtain ⟨h1, h2, h3⟩ := ih (date + n) 1 r hres
      refine ⟨h1, by omega, ?_⟩
      intro x hx1 hx2
      rcases eq_or_lt_of_le hx1 with heq | hlt
      · rw [← heq]; exact hoff
      · exact h3 x (by omega) hx2
    · rw [if_neg hoff] at hres
      simp only [Option.some.injEq, Except.ok.injEq] at hres
      subst hres
      exact ⟨Bool.eq_false_iff.mpr hoff, le_refl _, fun x hx1 hx2 => absurd hx1 (by omega)⟩

theorem at_day_fwd_complete (kk : Nat) :
    ∀ (cal : Calendar) (date n : Int),
      cal.is_day_off (date + n + kk) = false →
      ∃ r : Int, cal.get_working_day_at_day date n add_days (kk + 1) = some (.ok r) := by
  induction kk with
  | zero =>
    intro cal date n hfree
    refine ⟨date + n, ?_⟩
    simp only [Calendar.get_working_day_at_day, add_days]
    rw [if_neg]
    rw [Bool.not_eq_true]
    simpa using hfree
  | succ kk ih =>
    intro cal date n hfree
    by_cases hoff : cal.is_day_off (date + n) = true
    · have hfree' : cal.is_day_off ((date + n) + 1 + kk) = false := by
        have harg : (date + n) + 1 + (kk : Int) = date + n + ((kk : Nat) + 1 : Nat) := by
          push_cast; ring
        rw [harg]; exact hfree
      obtain ⟨r, hr⟩ := ih cal (date + n) 1 hfree'
      refine ⟨r, ?_⟩
      simp only [Calendar.get_working_day_at_day, add_days]
      rw [if_pos hoff]
      exact hr
    · refine ⟨date + n, ?_⟩
      simp only [Calendar.get_working_day_at_day, add_days]
      rw [if_neg hoff]

theorem at_day_bwd_sound (fuel : Nat) (cal : Calendar) :
    ∀ (date n r : Int),
      cal.get_working_day_at_day date n minus_days fuel = some (.ok r) →
      cal.is_day_off r = false ∧ r ≤ date - n ∧
        ∀ x : Int, x ≤ date - n → r < x → cal.is_day_off x = true := by
  induction fuel with
  | zero =>
    intro date n r hres
    simp [Calendar.get_working_day_at_day] at hres
  | succ fuel ih =>
    intro date n r hres
    simp only [Calendar.get_working_day_at_day, minus_days] at hres
    by_cases hoff : cal.is_day_off (date - n) = true
    · rw [if_pos hoff] at hres
      obtain ⟨h1, h2, h3⟩ := ih (date - n) 1 r hres
      refine ⟨h1, by omega, ?_⟩
      intro x hx1 hx2
      rcases eq_or_lt_of_le hx1 with heq | hlt
      · rw [heq]; exact hoff
      · exact h3 x (by omega) hx2
    · rw [if_neg hoff] at hres
      simp only [Option.some.injEq, Except.ok.injEq] at hres
      subst hres
      exact ⟨Bool.eq_false_iff.mpr hoff, le_refl _, fun x hx1 hx2 => absurd hx1 (by omega)⟩

theorem at_day_bwd_complete (kk : Nat) :
    ∀ (cal : Calendar) (date n : Int),
      cal.is_day_off (date - n - kk) = false →
      ∃ r : Int, cal.get_working_day_at_day date n minus_days (kk + 1) = some (.ok r) := by
  induction kk with
  | zero =>
    intro cal date n hfree
    refine ⟨date - n, ?_⟩
    simp only [Calendar.get_working_day_at_day, minus_days]
    rw [if_neg]
    rw [Bool.not_eq_true]
    simpa using hfree
  | succ kk ih =>
    intro cal date n hfree
    by_cases hoff : cal.is_day_off (date - n) = true
    · have hfree' : cal.is_day_off ((date - n) - 1 - kk) = false := by
        have harg : (date - n) - 1 - (kk : Int) = date - n - ((kk : Nat) + 1 : Nat) := by
          push_cast; ring
        rw [harg]; exact hfree
      obtain ⟨r, hr⟩ := ih cal (date - n) 1 hfree'
      refine ⟨r, ?_⟩
      simp only [Calendar.get_working_day_at_day, minus_days]
      rw [if_pos hoff]
      exact hr
    · refine ⟨date - n, ?_⟩
      simp only [Calendar.get_working_day_at_day, minus_days]
      rw [if_neg hoff]

theorem at_day_no_error (fuel : Nat) :
    ∀ (cal : Calendar) (date n : Int) (leaper : Int → Int → Int) (err : Error),
      cal.get_working_day_at_day date n leaper fuel ≠ some (.error err) := by
  induction fuel with
  | zero =>
    intro cal date n leaper err
    simp [Calendar.get_working_day_at_day]
  | succ fuel ih =>
    intro cal date n leaper err
    simp only [Calendar.get_working_day_at_day]
    split
    · exact ih cal (leaper date n) 1 leaper err
    · simp

/-! ## The hour-granularity traversal -/

theorem at_hour_fwd_sound (fuel : Nat) (cal : Calendar) :
    ∀ (dt h r : Int),
      cal.get_working_day_at_hour dt h add_hours fuel = some (.ok r) →
      cal.is_day_off (dateOf r) = false ∧
        ∃ kk : Nat, r = dt + h * 3600 + 86400 * kk ∧
          ∀ jj : Nat, jj < kk → cal.is_day_off (dateOf (dt + h * 3600 + 86400 * jj)) = true := by
  induction fuel with
  | zero =>
    intro dt h r hres
    simp [Calendar.get_working_day_at_hour] at hres
  | succ fuel ih =>
    intro dt h r hres
    simp only [Calendar.get_working_day_at_hour, add_hours] at hres
    by_cases hoff : cal.is_day_off (dateOf (dt + h * 3600)) = true
    · rw [if_pos hoff] at hres
      obtain ⟨h1, kk, hk, hall⟩ := ih (dt + h * 3600) 24 r hres
      refine ⟨h1, kk + 1, by push_cast at hk ⊢; omega, ?_⟩
      intro jj hjj
      match jj with
      | 0 => simpa using hoff
      | jj + 1 =>
        have := hall jj (by omega)
        have harg : dt + h * 3600 + 86400 * ((jj : Nat) + 1 : Nat) =
            (dt + h * 3600) + 24 * 3600 + 86400 * (jj : Nat) := by push_cast; ring
        rw [harg]
        exact this
    · rw [if_neg hoff] at hres
      simp only [Option.some.injEq, Except.ok.injEq] at hres
      subst hres
      exact ⟨Bool.eq_false_iff.mpr hoff, 0, by ring, fun jj hjj => absurd hjj (by omega)⟩

theorem at_hour_fwd_complete (kk : Nat) :
    ∀ (cal : Calendar) (dt h : Int),
      cal.is_day_off (dateOf (dt + h * 3600 + 86400 * kk)) = false →
      ∃ r : Int, cal.get_working_day_at_hour dt h add_hours (kk + 1) = some (.ok r) := by
  induction kk with
  | zero =>
    intro cal dt h hfree
    refine ⟨dt + h * 3600, ?_⟩
    simp only [Calendar.get_working_day_at_hour, add_hours]
    rw [if_neg]
    rw [Bool.not_eq_true]
    simpa using hfree
  | succ kk ih =>
    intro cal dt h hfree
    by_cases hoff : cal.is_day_off (dateOf (dt + h * 3600)) = true
    · have hfree' : cal.is_day_off (dateOf ((dt + h * 3600) + 24 * 3600 + 86400 * kk)) = false := by
        have harg : (dt + h * 3600) + 24 * 3600 + 86400 * (kk : Int) =
            dt + h * 3600 + 86400 * ((kk : Nat) + 1 : Nat) := by push_cast; ring
        rw [harg]; exact hfree
      obtain ⟨r, hr⟩ := ih cal (dt + h * 3600) 24 hfree'
      refine ⟨r, ?_⟩
      simp only [Calendar.get_working_day_at_hour, add_hours]
      rw [if_pos hoff]
      exact hr
    · refine ⟨dt + h * 3600, ?_⟩
      simp only [Calendar.get_working_day_at_hour, add_hours]
      rw [if_neg hoff]

theorem at_hour_bwd_sound (fuel : Nat) (cal : Calendar) :
    ∀ (dt h r : Int),
      cal.get_working_day_at_hour dt h minus_hours fuel = some (.ok r) →
      cal.is_day_off (dateOf r) = false ∧
        ∃ kk : Nat, r = dt - h * 3600 - 86400 * kk ∧
          ∀ jj : Nat, jj < kk → cal.is_day_off (dateOf (dt - h * 3600 - 86400 * jj)) = true := by
  induction fuel with
  | zero =>
    intro dt h r hres
    simp [Calendar.get_working_day_at_hour] at hres
  | succ fuel ih =>
    intro dt h r hres
    simp only [Calendar.get_working_day_at_hour, minus_hours] at hres
    by_cases hoff : cal.is_day_off (dateOf (dt - h * 3600)) = true
    · rw [if_pos hoff] at hres
      obtain ⟨h1, kk, hk, hall⟩ := ih (dt - h * 3600) 24 r hres
      refine ⟨h1, kk + 1, by push_cast at hk ⊢; omega, ?_⟩
      intro jj hjj
      match jj with
      | 0 => simpa using hoff
      | jj + 1 =>
        have := hall jj (by omega)
        have harg : dt - h * 3600 - 86400 * ((jj : Nat) + 1 : Nat) =
            (dt - h * 3600) - 24 * 3600 - 86400 * (jj : Nat) := by push_cast; ring
        rw [harg]
        exact this
    · rw [if_neg hoff] at hres
      simp only [Option.some.injEq, Except.ok.injEq] at hres
      subst hres
      exact ⟨Bool.eq_false_iff.mpr hoff, 0, by ring, fun jj hjj => absurd hjj (by omega)⟩

theorem at_hour_bwd_complete (kk : Nat) :
    ∀ (cal : Calendar) (dt h : Int),
      cal.is_day_off (dateOf (dt - h * 3600 - 86400 * kk)) = false →
      ∃ r : Int, cal.get_working_day_at_hour dt h minus_hours (kk + 1) = some (.ok r) := by
  induction kk with
  | zero =>
    intro cal dt h hfree
    refine ⟨dt - h * 3600, ?_⟩
    simp only [Calendar.get_working_day_at_hour, minus_hours]
    rw [if_neg]
    rw [Bool.not_eq_true]
    simpa using hfree
  | succ kk ih =>
    intro cal dt h hfree
    by_cases hoff : cal.is_day_off (dateOf (dt - h * 3600)) = true
    · have hfree' : cal.is_day_off (dateOf ((dt - h * 3600) - 24 * 3600 - 86400 * kk)) = false := by
        have harg : (dt - h * 3600) - 24 * 3600 - 86400 * (kk : Int) =
            dt - h * 3600 - 86400 * ((kk : Nat) + 1 : Nat) := by push_cast; ring
        rw [harg]; exact hfree
      obtain ⟨r, hr⟩ := ih cal (dt - h * 3600) 24 hfree'
      refine ⟨r, ?_⟩
      simp only [Calendar.get_working_day_at_hour, minus_hours]
      rw [if_pos hoff]
      exact hr
    · refine ⟨dt - h * 3600, ?_⟩
      simp only [Calendar.get_working_day_at_hour, minus_hours]
      rw [if_neg hoff]

theorem at_hour_no_error (fuel : Nat) :
    ∀ (cal : Calendar) (dt h : Int) (leaper : Int → Int → Int) (err : Error),
      cal.get_working_day_at_hour dt h leaper fuel ≠ some (.error err) := by
  induction fuel with
  | zero =>
    intro cal dt h leaper err
    simp [Calendar.get_working_day_at_hour]
  | succ fuel ih =>
    intro cal dt h leaper err
    simp only [Calendar.get_working_day_at_hour]
    split
    · exact ih cal (leaper dt h) 24 leaper err
    · simp

/-- The date component moves by exactly one day per 86400 seconds. -/
theorem dateOf_add_mul (x : Int) (k : Int) : dateOf (x + 86400 * k) = dateOf x + k := by
  unfold dateOf
  omega

/-! ## The Easter computation -/

theorem easter_f_lt (y : Nat) : Easter.f y < 19 := Nat.mod_lt _ (by norm_num)

theorem easter_g_lt (y : Nat) : Easter.g y < 30 := Nat.mod_lt _ (by norm_num)

theorem easter_m_lt (y : Nat) : Easter.m y < 7 := Nat.mod_lt _ (by norm_num)

theorem easter_h_le_g (y : Nat) : Easter.h y ≤ Easter.g y := by
  have hf := easter_f_lt y
  have hg := easter_g_lt y
  unfold Easter.h
  omega

/-- The `u32` subtraction `19*f + c - e` never underflows: `e ≤ c`. -/
theorem easter_e_le_c (y : Nat) : Easter.e y ≤ Easter.c y := by
  unfold Easter.e Easter.c
  omega

/-- The `u32` subtractions in `2*j - k - g + h` never underflow:
`k + g ≤ 2*j`. -/
theorem easter_kg_le_2j (y : Nat) : Easter.k y + Easter.g y ≤ 2 * Easter.j y := by
  have hg := easter_g_lt y
  unfold Easter.k Easter.j Easter.d Easter.b Easter.a
  omega

/-- The (month, day) pair the Easter algorithm produces is always a valid
date: month is March (31 days) with day at most 31, or April (30 days) with
day at most 26. -/
theorem easter_valid (yi : Int) (yn : Nat) :
    isValidYmd yi (Easter.month yn) (Easter.day yn) = true := by
  have hg := easter_g_lt yn
  have hm := easter_m_lt yn
  have hh := easter_h_le_g yn
  have hcase : (Easter.month yn = 3 ∧ Easter.day yn ≤ 31) ∨
      (Easter.month yn = 4 ∧ Easter.day yn ≤ 30) := by
    unfold Easter.month Easter.day Easter.n Easter.p
    omega
  have hday1 : 1 ≤ Easter.day yn := by unfold Easter.day; omega
  rcases hcase with ⟨h3, hd⟩ | ⟨h4, hd⟩
  · rw [isValidYmd, h3]
    have h31 : daysInMonth yi 3 = 31 := rfl
    rw [h31]
    simp only [Bool.and_eq_true, decide_eq_true_eq]
    exact ⟨⟨⟨by norm_num, by norm_num⟩, hday1⟩, hd⟩
  · rw [isValidYmd, h4]
    have h30 : daysInMonth yi 4 = 30 := rfl
    rw [h30]
    simp only [Bool.and_eq_true, decide_eq_true_eq]
    exact ⟨⟨⟨by norm_num, by norm_num⟩, hday1⟩, hd⟩

/-- For a non-negative year `get_easter` computes exactly the algorithm's
(month, day) pair and hands it to `get_date`. -/
theorem get_easter_eq (year : Int) (hy : 0 ≤ year) :
    get_easter year = get_date year (Easter.month year.toNat) (Easter.day year.toNat) := by
  unfold get_easter intToU32
  rw [if_neg (by omega)]
  rfl

/-- For a non-negative year `get_easter` succeeds and returns the day number
of the algorithm's date. -/
theorem get_easter_ok (year : Int) (hy : 0 ≤ year) :
    get_easter year = .ok (toDays year (Easter.month year.toNat) (Easter.day year.toNat)) := by
  rw [get_easter_eq year hy]
  unfold get_date
  rw [if_pos (easter_valid year year.toNat)]

/-- For a negative year `get_easter` fails with a `CalendarError`. -/
theorem get_easter_neg (year : Int) (hy : year < 0) :
    get_easter year =
      .error (.CalendarError "out of range integral type conversion attempted") := by
  unfold get_easter intToU32
  rw [if_pos hy]

/-! ## The holiday set -/

theorem holidays_for_year_eq (easter y : Int) :
    holidays_for_year easter y = .ok (holidaysListFor easter y) := rfl

theorem build_holidays_eq (year easter : Int) (hE : get_easter year = .ok easter) :
    build_holidays year = .ok (holidaysList year easter) := by
  unfold build_holidays
  rw [hE]
  rfl

theorem is_day_off_of_mem {cal : Calendar} {dd : Int} (hmem : dd ∈ cal.holidays) :
    cal.is_day_off dd = true :=
  (is_day_off_iff cal dd).mpr (Or.inl hmem)

theorem mem_holidaysListFor (e y dd : Int) :
    dd ∈ holidaysListFor e y ↔
      (fixedDatesOf y dd ∨ dd = e + 1 ∨ dd = e + 39 ∨ dd = e + 50) := by
  simp only [holidaysListFor, fixedDatesOf, List.mem_cons, List.not_mem_nil, or_false]
  tauto

theorem mem_holidaysList (year e dd : Int) :
    dd ∈ holidaysList year e ↔
      (fixedDatesOf (year - 1) dd ∨ fixedDatesOf year dd ∨ fixedDatesOf (year + 1) dd ∨
       dd = e + 1 ∨ dd = e + 39 ∨ dd = e + 50) := by
  simp only [holidaysList, List.mem_append, mem_holidaysListFor]
  tauto

theorem new_fields (year : Int) (cal : Calendar) (hc : Calendar.new year = .ok cal) :
    cal.is_saturday_off = true ∧ cal.is_sunday_off = true ∧
      build_holidays year = .ok cal.holidays := by
  unfold Calendar.new at hc
  cases hb : build_holidays year with
  | error err => rw [hb] at hc; cases hc
  | ok l =>
    rw [hb] at hc
    cases hc
    exact ⟨rfl, rfl, rfl⟩

theorem new_with_days_off_fields (year : Int) (sat sun : Bool) (cal : Calendar)
    (hc : Calendar.new_with_days_off year sat sun = .ok cal) :
    cal.is_saturday_off = sat ∧ cal.is_sunday_off = sun ∧
      build_holidays year = .ok cal.holidays := by
  unfold Calendar.new_with_days_off at hc
  cases hb : build_holidays year with
  | error err => rw [hb] at hc; cases hc
  | ok l =>
    rw [hb] at hc
    cases hc
    exact ⟨rfl, rfl, rfl⟩

/-! ## The Teliway formatter -/

theorem padDigits_length (w : Nat) : ∀ n : Nat, (padDigits w n).length = w := by
  induction w with
  | zero => intro n; rfl
  | succ w ih =>
    intro n
    simp [padDigits, ih]

theorem padDigits_chars (w : Nat) :
    ∀ (n : Nat) (c : Char), c ∈ padDigits w n → ∃ x, x < 10 ∧ c = digitChar x := by
  induction w with
  | zero => intro n c hc; cases hc
  | succ w ih =>
    intro n c hc
    rcases List.mem_append.mp hc with h1 | h2
    · exact ih (n / 10) c h1
    · simp only [List.mem_cons, List.not_mem_nil, or_false] at h2
      exact ⟨n % 10, Nat.mod_lt _ (by omega), h2⟩

theorem digitChar_ne_dash (x : Nat) (hx : x < 10) : (digitChar x != Char.ofNat 45) = true := by
  interval_cases x <;> decide

theorem digitChar_ne_colon (x : Nat) (hx : x < 10) : (digitChar x != Char.ofNat 58) = true := by
  interval_cases x <;> decide

theorem padDigits_filter_dash (w n : Nat) :
    (padDigits w n).filter (fun c => c != Char.ofNat 45) = padDigits w n := by
  rw [List.filter_eq_self]
  intro a ha
  obtain ⟨x, hx, rfl⟩ := padDigits_chars w n a ha
  exact digitChar_ne_dash x hx

theorem padDigits_filter_colon (w n : Nat) :
    (padDigits w n).filter (fun c => c != Char.ofNat 58) = padDigits w n := by
  rw [List.filter_eq_self]
  intro a ha
  obtain ⟨x, hx, rfl⟩ := padDigits_chars w n a ha
  exact digitChar_ne_colon x hx

/-- The legacy date encoding is the eight digits `YYYYMMDD`. -/
theorem iso_date_teliway_eq (y m d : Nat) :
    iso_date_to_teliway_date y m d = padDigits 4 y ++ padDigits 2 m ++ padDigits 2 d := by
  simp [iso_date_to_teliway_date, naiveDateToString, List.filter_append,
    padDigits_filter_dash, List.filter_cons]

/-- The legacy hour encoding is only the four digits `HHMM`: the seconds are
cut off by the `[..5]` slice. -/
theorem iso_time_teliway_eq (h mi s : Nat) :
    iso_time_to_teliway_hour h mi s = padDigits 2 h ++ padDigits 2 mi := by
  unfold iso_time_to_teliway_hour naiveTimeToString
  rw [show (5 : Nat) = (padDigits 2 h).length + 3 by rw [padDigits_length],
    List.take_append, List.take_succ_cons, List.take_left' (padDigits_length 2 mi)]
  simp [List.filter_append, padDigits_filter_colon, List.filter_cons]

/-! ## The claims -/

/-- C5: `is_day_off(date)` is true iff `date` is in the holiday set, or it is
a Saturday (weekday 5) and `is_saturday_off`, or a Sunday (weekday 6) and
`is_sunday_off`; `new` sets both weekend flags, `new_with_days_off` uses the
given flags. -/
theorem claim5_is_day_off_semantics :
    (∀ (cal : Calendar) (dd : Int), cal.is_day_off dd = true ↔
        (dd ∈ cal.holidays ∨ (weekday dd = 5 ∧ cal.is_saturday_off = true) ∨
         (weekday dd = 6 ∧ cal.is_sunday_off = true)))
    ∧ (∀ (year : Int) (cal : Calendar), Calendar.new year = .ok cal →
        cal.is_saturday_off = true ∧ cal.is_sunday_off = true)
    ∧ (∀ (year : Int) (sat sun : Bool) (cal : Calendar),
        Calendar.new_with_days_off year sat sun = .ok cal →
        cal.is_saturday_off = sat ∧ cal.is_sunday_off = sun) :=
  ⟨is_day_off_iff,
   fun year cal hc => ⟨(new_fields year cal hc).1, (new_fields year cal hc).2.1⟩,
   fun year sat sun cal hc =>
     ⟨(new_with_days_off_fields year sat sun cal hc).1,
      (new_with_days_off_fields year sat sun cal hc).2.1⟩⟩

/-- C6: for every non-negative year, `get_easter` returns exactly the date of
the integer algorithm of spec 4.1 (month `n`, day `p + 1`), and in particular
Easter 2018 = April 1, 2018 and Easter 2020 = April 12, 2020. -/
theorem claim6_easter_formula :
    (∀ year : Nat,
      get_easter (year : Int) = .ok (toDays (year : Int) (Easter.month year) (Easter.day year)))
    ∧ get_easter 2018 = .ok (toDays 2018 4 1)
    ∧ get_easter 2020 = .ok (toDays 2020 4 12) := by
  refine ⟨?_, by decide, by decide⟩
  intro year
  have hcast := get_easter_ok (year : Int) (Int.natCast_nonneg year)
  simpa using hcast

/-- C3: `get_next_working_day(date, n)` returns (for sufficient fuel) the
first date at or after `date + n` that is not a day off, and
`get_previous_working_day(date, n)` the first date at or before `date - n`
that is not a day off; in particular the result is never a day off. -/
theorem claim3_working_day_at_day :
    ∀ (cal : Calendar) (date n : Int),
      (∃ fuel r, cal.get_next_working_day date n fuel = some (.ok r)
        ∧ cal.is_day_off r = false ∧ date + n ≤ r
        ∧ ∀ x : Int, date + n ≤ x → x < r → cal.is_day_off x = true)
      ∧ (∃ fuel r, cal.get_previous_working_day date n fuel = some (.ok r)
        ∧ cal.is_day_off r = false ∧ r ≤ date - n
        ∧ ∀ x : Int, x ≤ date - n → r < x → cal.is_day_off x = true) := by
  intro cal date n
  constructor
  · obtain ⟨kk, hk⟩ := exists_not_day_off_fwd cal (date + n)
    obtain ⟨r, hr⟩ := at_day_fwd_complete kk cal date n hk
    obtain ⟨h1, h2, h3⟩ := at_day_fwd_sound (kk + 1) cal date n r hr
    exact ⟨kk + 1, r, hr, h1, h2, h3⟩
  · obtain ⟨kk, hk⟩ := exists_not_day_off_bwd cal (date - n)
    obtain ⟨r, hr⟩ := at_day_bwd_complete kk cal date n hk
    obtain ⟨h1, h2, h3⟩ := at_day_bwd_sound (kk + 1) cal date n r hr
    exact ⟨kk + 1, r, hr, h1, h2, h3⟩

/-- C4: the hour-granularity traversals first step `h` hours (3600 seconds
each), then correct by whole 24-hour (86400-second) steps while the date
component is a day off; the result has a non-day-off date component and the
same time-of-day (residue mod 86400) as the datetime shifted by `h` hours. -/
theorem claim4_working_day_at_hour :
    ∀ (cal : Calendar) (dt h : Int),
      (∃ fuel r, ∃ kk : Nat,
        cal.get_next_working_day_with_hours dt h fuel = some (.ok r)
        ∧ cal.is_day_off (dateOf r) = false
        ∧ r = add_hours dt h + 86400 * kk
        ∧ (∀ jj : Nat, jj < kk → cal.is_day_off (dateOf (add_hours dt h + 86400 * jj)) = true)
        ∧ r % 86400 = add_hours dt h % 86400)
      ∧ (∃ fuel r, ∃ kk : Nat,
        cal.get_previous_working_day_with_hours dt h fuel = some (.ok r)
        ∧ cal.is_day_off (dateOf r) = false
        ∧ r = minus_hours dt h - 86400 * kk
        ∧ (∀ jj : Nat, jj < kk → cal.is_day_off (dateOf (minus_hours dt h - 86400 * jj)) = true)
        ∧ r % 86400 = minus_hours dt h % 86400) := by
  intro cal dt h
  constructor
  · obtain ⟨kk0, hk⟩ := exists_not_day_off_fwd cal (dateOf (dt + h * 3600))
    have hk' : cal.is_day_off (dateOf (dt + h * 3600 + 86400 * kk0)) = false := by
      rw [show dt + h * 3600 + 86400 * (kk0 : Int) = (dt + h * 3600) + 86400 * kk0 by ring,
        dateOf_add_mul]
      exact hk
    obtain ⟨r, hr⟩ := at_hour_fwd_complete kk0 cal dt h hk'
    obtain ⟨h1, kk, hkeq, hall⟩ := at_hour_fwd_sound (kk0 + 1) cal dt h r hr
    refine ⟨kk0 + 1, r, kk, hr, h1, by simpa [add_hours] using hkeq,
      by simpa [add_hours] using hall, ?_⟩
    simp only [add_hours]
    omega
  · obtain ⟨kk0, hk⟩ := exists_not_day_off_bwd cal (dateOf (dt - h * 3600))
    have hk' : cal.is_day_off (dateOf (dt - h * 3600 - 86400 * kk0)) = false := by
      rw [show dt - h * 3600 - 86400 * (kk0 : Int) = (dt - h * 3600) + 86400 * (-(kk0 : Int))
        by ring, dateOf_add_mul]
      simpa using hk
    obtain ⟨r, hr⟩ := at_hour_bwd_complete kk0 cal dt h hk'
    obtain ⟨h1, kk, hkeq, hall⟩ := at_hour_bwd_sound (kk0 + 1) cal dt h r hr
    refine ⟨kk0 + 1, r, kk, hr, h1, by simpa [minus_hours] using hkeq,
      by simpa [minus_hours] using hall, ?_⟩
    simp only [minus_hours]
    omega

/-- C7: all four traversal operations terminate on every input: some finite
fuel makes the recursion (embedded with fuel) return a value. -/
theorem claim7_termination :
    ∀ (cal : Calendar) (date n dt h : Int),
      (∃ fuel res, cal.get_next_working_day date n fuel = some res)
      ∧ (∃ fuel res, cal.get_previous_working_day date n fuel = some res)
      ∧ (∃ fuel res, cal.get_next_working_day_with_hours dt h fuel = some res)
      ∧ (∃ fuel res, cal.get_previous_working_day_with_hours dt h fuel = some res) := by
  intro cal date n dt h
  refine ⟨?_, ?_, ?_, ?_⟩
  · obtain ⟨kk, hk⟩ := exists_not_day_off_fwd cal (date + n)
    obtain ⟨r, hr⟩ := at_day_fwd_complete kk cal date n hk
    exact ⟨kk + 1, .ok r, hr⟩
  · obtain ⟨kk, hk⟩ := exists_not_day_off_bwd cal (date - n)
    obtain ⟨r, hr⟩ := at_day_bwd_complete kk cal date n hk
    exact ⟨kk + 1, .ok r, hr⟩
  · obtain ⟨kk, hk⟩ := exists_not_day_off_fwd cal (dateOf (dt + h * 3600))
    have hk' : cal.is_day_off (dateOf (dt + h * 3600 + 86400 * kk)) = false := by
      rw [show dt + h * 3600 + 86400 * (kk : Int) = (dt + h * 3600) + 86400 * kk by ring,
        dateOf_add_mul]
      exact hk
    obtain ⟨r, hr⟩ := at_hour_fwd_complete kk cal dt h hk'
    exact ⟨kk + 1, .ok r, hr⟩
  · obtain ⟨kk, hk⟩ := exists_not_day_off_bwd cal (dateOf (dt - h * 3600))
    have hk' : cal.is_day_off (dateOf (dt - h * 3600 - 86400 * kk)) = false := by
      rw [show dt - h * 3600 - 86400 * (kk : Int) = (dt - h * 3600) + 86400 * (-(kk : Int))
        by ring, dateOf_add_mul]
      simpa using hk
    obtain ⟨r, hr⟩ := at_hour_bwd_complete kk cal dt h hk'
    exact ⟨kk + 1, .ok r, hr⟩

/-- C2: for any non-negative year, `build_holidays` succeeds and its output
holds exactly the eight fixed dates of each of the three years
`year-1, year, year+1`, plus the three movable dates `Easter+1`, `Easter+39`,
`Easter+50` where Easter is computed once, from the central year, and the
same three movable dates are emitted identically for all three years. -/
theorem claim2_build_holidays (year : Int) (h0 : 0 ≤ year) :
    ∃ easter hs, get_easter year = .ok easter ∧ build_holidays year = .ok hs ∧
      holidaySetSpec year easter hs := by
  refine ⟨toDays year (Easter.month year.toNat) (Easter.day year.toNat), _,
    get_easter_ok year h0, build_holidays_eq year _ (get_easter_ok year h0), ?_⟩
  unfold holidaySetSpec
  intro dd
  exact mem_holidaysList year _ dd

/-- Witness for C2 at the concrete year 2018. -/
theorem claim2_build_holidays_witness :
    (0 : Int) ≤ 2018 ∧ ∃ easter hs, get_easter 2018 = .ok easter ∧
      build_holidays 2018 = .ok hs ∧ holidaySetSpec 2018 easter hs :=
  ⟨by norm_num, claim2_build_holidays 2018 (by norm_num)⟩

/-- C1 fails on the code: `Calendar::new(2018)` does not recognize the real
Easter Monday of 2019 (April 22, 2019, a Monday, computed from Easter 2019 =
April 21), because the movable holidays of the neighboring years are offsets
of the central year's Easter only. -/
theorem claim1_counterexample :
    (Calendar.new 2018).map (fun cal => cal.is_day_off (add_days (toDays 2019 4 21) 1)) = .ok false
    ∧ get_easter 2019 = .ok (toDays 2019 4 21)
    ∧ weekday (add_days (toDays 2019 4 21) 1) = 0 := by
  decide

/-- C1 amended: for a Calendar built for year `Y ≥ 0` (by `new` or
`new_with_days_off`), `is_day_off` is true on the eight fixed holidays of
each year in `{Y-1, Y, Y+1}` and on the three movable holidays computed from
year `Y`'s own Easter; movable holidays of the neighboring years computed
from their own Easter are not recognized in general. -/
theorem claim1_amended (year : Int) (h0 : 0 ≤ year) (cal : Calendar)
    (hc : Calendar.new year = .ok cal ∨
      ∃ sat sun, Calendar.new_with_days_off year sat sun = .ok cal) :
    (fixedRecognized cal (year - 1) ∧ fixedRecognized cal year ∧
      fixedRecognized cal (year + 1))
    ∧ ∀ easter : Int, get_easter year = .ok easter → movableRecognized cal easter := by
  have hbuild : build_holidays year = .ok cal.holidays := by
    rcases hc with hn | ⟨sat, sun, hn⟩
    · exact (new_fields year cal hn).2.2
    · exact (new_with_days_off_fields year sat sun cal hn).2.2
  have hE := get_easter_ok year h0
  have hlist := build_holidays_eq year _ hE
  rw [hbuild] at hlist
  injection hlist with h3
  have hmem : ∀ dd : Int,
      dd ∈ holidaysList year (toDays year (Easter.month year.toNat) (Easter.day year.toNat)) →
      cal.is_day_off dd = true := fun dd hm => is_day_off_of_mem (h3 ▸ hm)
  constructor
  · refine ⟨⟨?_, ?_, ?_, ?_, ?_, ?_, ?_, ?_⟩, ⟨?_, ?_, ?_, ?_, ?_, ?_, ?_, ?_⟩,
      ⟨?_, ?_, ?_, ?_, ?_, ?_, ?_, ?_⟩⟩ <;>
      (apply hmem; simp [holidaysList, holidaysListFor])
  · intro easter hEe
    rw [hE] at hEe
    injection hEe with h4
    subst h4
    refine ⟨?_, ?_, ?_⟩ <;> (apply hmem; simp [holidaysList, holidaysListFor])

/-- Witness for the amended C1 at the concrete year 2018. -/
theorem claim1_amended_witness :
    (0 : Int) ≤ 2018
    ∧ (Calendar.new 2018 = .ok cal2018 ∨
        ∃ sat sun, Calendar.new_with_days_off 2018 sat sun = .ok cal2018)
    ∧ ((fixedRecognized cal2018 (2018 - 1) ∧ fixedRecognized cal2018 2018 ∧
          fixedRecognized cal2018 (2018 + 1))
        ∧ ∀ easter : Int, get_easter 2018 = .ok easter → movableRecognized cal2018 easter) :=
  ⟨by norm_num, Or.inl (by decide),
   claim1_amended 2018 (by norm_num) cal2018 (Or.inl (by decide))⟩

/-- C8: within the `i32` input range, `get_easter` fails exactly on negative
years; for every non-negative year the unsigned subtractions of the formula
never underflow, the constructed (month, day) is a valid Gregorian date (so
the defensive validity branch of `get_date` never fires), and the result is
`Ok`. -/
theorem claim8_easter_errors (year : Int) (hlo : -2147483648 ≤ year)
    (hhi : year ≤ 2147483647) :
    ((∃ err, get_easter year = .error err) ↔ year < 0)
    ∧ (0 ≤ year →
        Easter.e year.toNat ≤ Easter.c year.toNat
        ∧ Easter.h year.toNat ≤ Easter.g year.toNat
        ∧ Easter.k year.toNat + Easter.g year.toNat ≤ 2 * Easter.j year.toNat
        ∧ isValidYmd year (Easter.month year.toNat) (Easter.day year.toNat) = true
        ∧ get_easter year =
            .ok (toDays year (Easter.month year.toNat) (Easter.day year.toNat))) := by
  constructor
  · constructor
    · rintro ⟨err, herr⟩
      by_contra hneg
      push_neg at hneg
      rw [get_easter_ok year hneg] at herr
      cases herr
    · intro hneg
      exact ⟨_, get_easter_neg year hneg⟩
  · intro h0
    exact ⟨easter_e_le_c _, easter_h_le_g _, easter_kg_le_2j _, easter_valid _ _,
      get_easter_ok year h0⟩

/-- Witness for C8 at the concrete year 2018. -/
theorem claim8_easter_errors_witness :
    (-2147483648 : Int) ≤ 2018 ∧ (2018 : Int) ≤ 2147483647
    ∧ (((∃ err, get_easter 2018 = .error err) ↔ (2018 : Int) < 0)
      ∧ ((0 : Int) ≤ 2018 →
          Easter.e (2018 : Int).toNat ≤ Easter.c (2018 : Int).toNat
          ∧ Easter.h (2018 : Int).toNat ≤ Easter.g (2018 : Int).toNat
          ∧ Easter.k (2018 : Int).toNat + Easter.g (2018 : Int).toNat ≤
              2 * Easter.j (2018 : Int).toNat
          ∧ isValidYmd 2018 (Easter.month (2018 : Int).toNat) (Easter.day (2018 : Int).toNat)
              = true
          ∧ get_easter 2018 =
              .ok (toDays 2018 (Easter.month (2018 : Int).toNat)
                (Easter.day (2018 : Int).toNat)))) :=
  ⟨by norm_num, by norm_num, claim8_easter_errors 2018 (by norm_num) (by norm_num)⟩

/-- C9 fails on the code: the legacy hour encoding `iso_time_to_teliway_hour`
keeps only `HHMM` (the seconds are cut off by the `[..5]` slice), so feeding
it back through `format_teliway_datetime_to_iso` yields `"HH:MM:"` with an
empty seconds field — not the `"HH:MM:SS"` rendering of the time.  Concretely
for the date 2023-12-01 and the time 10:30:00 the reconstructed time text is
`"10:30:"`, not `"10:30:00"` (the date component does round-trip). -/
theorem claim9_counterexample :
    (format_teliway_datetime_to_iso (iso_date_to_teliway_date 2023 12 1)
        (iso_time_to_teliway_hour 10 30 0)).2 ≠ naiveTimeToString 10 30 0
    ∧ format_teliway_datetime_to_iso (iso_date_to_teliway_date 2023 12 1)
        (iso_time_to_teliway_hour 10 30 0)
      = (naiveDateToString 2023 12 1, "10:30:".toList) := by
  decide

/-- C9 amended: for every valid date (year 0..=9999) and time, feeding the
legacy encodings back through `format_teliway_datetime_to_iso` reconstructs
the `YYYY-MM-DD` rendering of the date exactly, while the time component
comes back as `HH:MM:` — the hour and minute of the time followed by a bare
colon and an empty seconds field, the seconds having been dropped by the
legacy hour encoding. -/
theorem claim9_amended (y m d h mi s : Nat) (hy : y ≤ 9999) (hm1 : 1 ≤ m) (hm2 : m ≤ 12)
    (hd1 : 1 ≤ d) (hd2 : d ≤ 31) (hh : h ≤ 23) (hmi : mi ≤ 59) (hs : s ≤ 59) :
    format_teliway_datetime_to_iso (iso_date_to_teliway_date y m d)
        (iso_time_to_teliway_hour h mi s)
      = (naiveDateToString y m d,
         padDigits 2 h ++ Char.ofNat 58 :: (padDigits 2 mi ++ [Char.ofNat 58])) := by
  rw [iso_date_teliway_eq, iso_time_teliway_eq]
  unfold format_teliway_datetime_to_iso naiveDateToString
  have e1 : (padDigits 4 y ++ padDigits 2 m ++ padDigits 2 d).take 4 = padDigits 4 y := by
    rw [List.append_assoc, List.take_left' (padDigits_length 4 y)]
  have e2 : (padDigits 4 y ++ padDigits 2 m ++ padDigits 2 d).drop 4 =
      padDigits 2 m ++ padDigits 2 d := by
    rw [List.append_assoc, List.drop_left' (padDigits_length 4 y)]
  have e3 : (padDigits 2 m ++ padDigits 2 d).take 2 = padDigits 2 m :=
    List.take_left' (padDigits_length 2 m)
  have e4 : (padDigits 4 y ++ padDigits 2 m ++ padDigits 2 d).drop 6 = padDigits 2 d := by
    rw [List.append_assoc, show (6 : Nat) = (padDigits 4 y).length + 2 by
        rw [padDigits_length], List.drop_append, List.drop_left' (padDigits_length 2 m)]
  have e5 : (padDigits 2 h ++ padDigits 2 mi).take 2 = padDigits 2 h :=
    List.take_left' (padDigits_length 2 h)
  have e6 : (padDigits 2 h ++ padDigits 2 mi).drop 2 = padDigits 2 mi :=
    List.drop_left' (padDigits_length 2 h)
  have e7 : (padDigits 2 mi).take 2 = padDigits 2 mi :=
    List.take_of_length_le (by simp [padDigits_length])
  have e8 : (padDigits 2 h ++ padDigits 2 mi).drop 4 = [] := by
    apply List.drop_eq_nil_of_le
    simp [padDigits_length]
  rw [e1, e2, e3, e4, e5, e6, e7, e8]

/-- Witness for the amended C9 at the concrete date 2023-12-01 and time
10:30:00. -/
theorem claim9_amended_witness :
    (2023 : Nat) ≤ 9999 ∧ (1 : Nat) ≤ 12 ∧ (12 : Nat) ≤ 12 ∧ (1 : Nat) ≤ 1 ∧ (1 : Nat) ≤ 31
    ∧ (10 : Nat) ≤ 23 ∧ (30 : Nat) ≤ 59 ∧ (0 : Nat) ≤ 59
    ∧ format_teliway_datetime_to_iso (iso_date_to_teliway_date 2023 12 1)
        (iso_time_to_teliway_hour 10 30 0)
      = (naiveDateToString 2023 12 1,
         padDigits 2 10 ++ Char.ofNat 58 :: (padDigits 2 30 ++ [Char.ofNat 58])) :=
  ⟨by decide, by decide, by decide, by decide, by decide, by decide, by decide, by decide,
   claim9_amended 2023 12 1 10 30 0 (by decide) (by decide) (by decide) (by decide)
     (by decide) (by decide) (by decide) (by decide)⟩

/-- C10: none of the four traversal operations ever constructs an `Err`
value: whatever the calendar, the input and the fuel, the result is never
`some (error _)`. -/
theorem claim10_never_error :
    ∀ (cal : Calendar) (date n dt h : Int) (fuel : Nat) (err : Error),
      cal.get_next_working_day date n fuel ≠ some (.error err)
      ∧ cal.get_previous_working_day date n fuel ≠ some (.error err)
      ∧ cal.get_next_working_day_with_hours dt h fuel ≠ some (.error err)
      ∧ cal.get_previous_working_day_with_hours dt h fuel ≠ some (.error err) :=
  fun cal date n dt h fuel err =>
    ⟨at_day_no_error fuel cal date n add_days err,
     at_day_no_error fuel cal date n minus_days err,
     at_hour_no_error fuel cal dt h add_hours err,
     at_hour_no_error fuel cal dt h minus_hours err⟩

end DatetimeHelpers

